import Mathlib

/-!
Shallow embedding of the vote-ingestion and scoring pipeline of the navp
repository (src/get_votes.py, src/get_votes_both.py, src/get_votes_dev.py),
together with theorems settling the frozen claims about its specification.

Conventions used throughout:
* Python lists become Lean `List`s, dicts become association lists.
* Machine integers are modelled as `Int` (no overflow is relevant here),
  pandas numeric values as `Rat` (the test data is exact decimal).
* Fallible Python code (code that can raise) returns `Except PyErr _`.
* Python string `strip` is modelled by `String.trim`; the inputs involved
  are plain ASCII, where the two agree.
-/

namespace Navp

/-- Kinds of Python exceptions that the embedded code can raise. -/
inductive PyErr where
  | nameError
  | attributeError
  | valueError
  deriving DecidableEq, Repr

/-- Python truthiness-based `a or b` on optional strings: `None` and the
empty string are falsy, so either of them falls through to `b`. -/
def pyOrS (a b : Option String) : Option String :=
  match a with
  | none => b
  | some s => if s = "" then b else some s

/-- Strip leading and trailing whitespace from a character list (the
character-level body of Python `str.strip`). -/
def trimChars (cs : List Char) : List Char :=
  ((cs.dropWhile Char.isWhitespace).reverse.dropWhile Char.isWhitespace).reverse

/-- Accumulate a decimal value over a nonempty all-digit character list. -/
def natDigits (cs : List Char) : Option Nat :=
  match cs with
  | [] => none
  | _ =>
    cs.foldl
      (fun acc c => acc.bind
        (fun n => if c.isDigit then some (n * 10 + (c.toNat - 48)) else none))
      (some 0)

/-- Parse an optionally signed decimal integer from a character list. -/
def intChars (cs : List Char) : Option Int :=
  match cs with
  | [] => none
  | c :: rest =>
    if c = '-' then (natDigits rest).map (fun n => -(n : Int))
    else if c = '+' then (natDigits rest).map (fun n => (n : Int))
    else (natDigits cs).map (fun n => (n : Int))

/-- Python `int(s)` on a string: parse an optionally signed decimal integer
after trimming surrounding whitespace, raising ValueError otherwise (the
underscore-separator niceties of Python's grammar are not relevant to the
URL slices the source feeds in). -/
def pyInt (s : String) : Except PyErr Int :=
  match intChars (trimChars s.toList) with
  | some n => Except.ok n
  | none => Except.error PyErr.valueError

/-- Fueled splitting of a character list on a nonempty separator; the fuel
is consumed one step per character, so `length + 1` always suffices. -/
def splitCharsGo (sep : List Char) : Nat → List Char → List Char → List (List Char)
  | 0, rest, acc => [acc.reverse ++ rest]
  | _ + 1, [], acc => [acc.reverse]
  | fuel + 1, c :: rest, acc =>
    if sep.isPrefixOf (c :: rest) then
      acc.reverse :: splitCharsGo sep fuel ((c :: rest).drop sep.length) []
    else
      splitCharsGo sep fuel rest (c :: acc)

/-- Python `s.split(sep)` for a nonempty separator: non-overlapping
left-to-right matches, empty pieces preserved, whole string when the
separator never occurs. -/
def pySplitOn (s : String) (sep : String) : List String :=
  (splitCharsGo sep.toList (s.toList.length + 1) s.toList []).map
    (fun cs => String.mk cs)

instance {ε α : Type} [DecidableEq ε] [DecidableEq α] :
    DecidableEq (Except ε α) := fun a b =>
  match a, b with
  | Except.error e, Except.error f =>
    if h : e = f then isTrue (by rw [h])
    else isFalse (by intro hh; cases hh; exact h rfl)
  | Except.error _, Except.ok _ => isFalse (by intro h; cases h)
  | Except.ok _, Except.error _ => isFalse (by intro h; cases h)
  | Except.ok x, Except.ok y =>
    if h : x = y then isTrue (by rw [h])
    else isFalse (by intro hh; cases hh; exact h rfl)

/-- Conversion of a numeric value to `int` as numpy/pandas `astype(int)`
performs it: truncation toward zero. -/
def pyTrunc (q : Rat) : Int :=
  if q < 0 then -((-q).floor) else q.floor

/-! ## Roll-call locator (get_votes_both.py lines 49-63, get_votes_dev.py pick_latest)

An action from the bill action history carries a list of recorded-vote
descriptors; the locator buckets actions by descriptor chamber and takes a
maximum by roll number using Python `max`. -/

/-- One entry of an action's recordedVotes list: chamber, rollNumber, url. -/
structure RecordedVote where
  chamber : String
  rollNumber : Int
  url : String
  deriving DecidableEq, Repr

/-- One action from the bill's action history; only the fields the locator
reads are modelled (`a.get("recordedVotes", [])` becomes a plain field). -/
structure Action where
  text : String
  recordedVotes : List RecordedVote
  deriving DecidableEq, Repr

/-- get_votes_both.py lines 50-55: `house_rolls.append(a)` once per recorded
vote of `a` whose chamber is "House" (an action with several House
descriptors is appended several times, exactly as the nested loop does). -/
def house_rolls (acts : List Action) : List Action :=
  acts.flatMap (fun a =>
    a.recordedVotes.filterMap (fun rv =>
      if rv.chamber = "House" then some a else none))

/-- get_votes_both.py lines 50-55, the Senate bucket. -/
def sen_rolls (acts : List Action) : List Action :=
  acts.flatMap (fun a =>
    a.recordedVotes.filterMap (fun rv =>
      if rv.chamber = "Senate" then some a else none))

/-- The key used by the source's `max` calls:
`a["recordedVotes"][0]["rollNumber"]`.  Every element of `house_rolls` /
`sen_rolls` has a nonempty recordedVotes list (it contributed a descriptor),
so the unreachable empty case is mapped to 0. -/
def rvKey (a : Action) : Int :=
  match a.recordedVotes with
  | [] => 0
  | rv :: _ => rv.rollNumber

/-- The left fold CPython `max(iterable, key=k)` performs: keep the current
best and replace it only when a strictly larger key appears, so the first
maximal element wins ties. -/
def pyFoldMax (k : Action → Int) (b : Action) (xs : List Action) : Action :=
  xs.foldl (fun best y => if k best < k y then y else best) b

/-- Python `max(rolls, key=lambda a: a["recordedVotes"][0]["rollNumber"])`,
returning `none` on the empty list (the source guards emptiness with a
truthiness check before calling `max`). -/
def pyMax (k : Action → Int) : List Action → Option Action
  | [] => none
  | x :: xs => some (pyFoldMax k x xs)

/-- get_votes_dev.py lines 101-106 (`pick_latest`), also the `max` calls at
get_votes_both.py lines 59 and 61. -/
def pick_latest (rolls : List Action) : Option Action :=
  pyMax rvKey rolls

/-- The roll numbers of the recorded-vote descriptors of `a` tagged with
chamber `c` (used only to state properties; the source never computes it). -/
def rollsOfChamber (c : String) (a : Action) : List Int :=
  a.recordedVotes.filterMap (fun rv =>
    if rv.chamber = c then some rv.rollNumber else none)

/-! Helper lemmas about `pyFoldMax`: it returns an element of the list
whose key is maximal, and every strictly earlier element has a strictly
smaller key (first-of-the-ties wins). -/

theorem pyFoldMax_le (k : Action → Int) (xs : List Action) (b : Action) :
    k b ≤ k (pyFoldMax k b xs) := by
  induction xs generalizing b with
  | nil => exact le_refl _
  | cons y ys ih =>
    simp only [pyFoldMax, List.foldl_cons]
    by_cases h : k b < k y
    · simp only [if_pos h]
      exact le_trans (le_of_lt h) (ih y)
    · simp only [if_neg h]
      exact ih b

theorem pyFoldMax_mem_le (k : Action → Int) (xs : List Action) (b : Action) :
    ∀ y ∈ xs, k y ≤ k (pyFoldMax k b xs) := by
  induction xs generalizing b with
  | nil => intro y hy; cases hy
  | cons z zs ih =>
    intro y hy
    simp only [pyFoldMax, List.foldl_cons]
    rcases List.mem_cons.mp hy with rfl | hy
    · by_cases h : k b < k y
      · simp only [if_pos h]; exact pyFoldMax_le k zs y
      · simp only [if_neg h]
        exact le_trans (le_of_not_lt h) (pyFoldMax_le k zs b)
    · by_cases h : k b < k z
      · simp only [if_pos h]; exact ih z y hy
      · simp only [if_neg h]; exact ih b y hy

theorem pyFoldMax_cons (k : Action → Int) (b z : Action) (zs : List Action) :
    pyFoldMax k b (z :: zs) =
      if k b < k z then pyFoldMax k z zs else pyFoldMax k b zs := by
  by_cases h : k b < k z <;> simp [pyFoldMax, h]

theorem pyFoldMax_first (k : Action → Int) (xs : List Action) (b : Action) :
    ∃ l₁ l₂, b :: xs = l₁ ++ pyFoldMax k b xs :: l₂ ∧
      ∀ y ∈ l₁, k y < k (pyFoldMax k b xs) := by
  induction xs generalizing b with
  | nil =>
    exact ⟨[], [], rfl, by intro y hy; cases hy⟩
  | cons z zs ih =>
    by_cases h : k b < k z
    · rw [pyFoldMax_cons, if_pos h]
      obtain ⟨l₁, l₂, hdec, hlt⟩ := ih z
      refine ⟨b :: l₁, l₂, by rw [List.cons_append, ← hdec], ?_⟩
      intro y hy
      rcases List.mem_cons.mp hy with rfl | hy
      · exact lt_of_lt_of_le h (pyFoldMax_le k zs z)
      · exact hlt y hy
    · rw [pyFoldMax_cons, if_neg h]
      obtain ⟨l₁, l₂, hdec, hlt⟩ := ih b
      cases l₁ with
      | nil =>
        simp only [List.nil_append] at hdec
        have hb : b = pyFoldMax k b zs := ((List.cons.injEq _ _ _ _).mp hdec).1
        exact ⟨[], z :: zs, by rw [← hb, List.nil_append], by intro y hy; cases hy⟩
      | cons w l₁t =>
        rw [List.cons_append] at hdec
        have hw : b = w := ((List.cons.injEq _ _ _ _).mp hdec).1
        have htail : zs = l₁t ++ pyFoldMax k b zs :: l₂ :=
          ((List.cons.injEq _ _ _ _).mp hdec).2
        have hbmem : b ∈ w :: l₁t := by rw [← hw]; exact List.mem_cons_self _ _
        have hbm : k b < k (pyFoldMax k b zs) := hlt b hbmem
        refine ⟨b :: z :: l₁t, l₂, ?_, ?_⟩
        · rw [List.cons_append, List.cons_append, ← htail]
        · intro y hy
          rcases List.mem_cons.mp hy with rfl | hy2
          · exact hbm
          rcases List.mem_cons.mp hy2 with rfl | hy3
          · have hzb : k y ≤ k b := le_of_not_lt h
            omega
          · exact hlt y (List.mem_cons_of_mem w hy3)

/-- Packaged specification of Python `max` with first-tie-wins: on a
nonempty list it returns a maximal element, and every element strictly
before the returned one in the list has a strictly smaller key. -/
theorem pyMax_spec (k : Action → Int) (l : List Action) (hne : l ≠ []) :
    ∃ m l₁ l₂, pyMax k l = some m ∧ l = l₁ ++ m :: l₂ ∧
      (∀ y ∈ l, k y ≤ k m) ∧ (∀ y ∈ l₁, k y < k m) := by
  cases l with
  | nil => exact absurd rfl hne
  | cons x xs =>
    obtain ⟨l₁, l₂, hdec, hlt⟩ := pyFoldMax_first k xs x
    refine ⟨pyFoldMax k x xs, l₁, l₂, rfl, hdec, ?_, hlt⟩
    intro y hy
    rcases List.mem_cons.mp hy with rfl | hy
    · exact pyFoldMax_le k xs y
    · exact pyFoldMax_mem_le k xs x y hy

theorem mem_house_rolls {acts : List Action} {a : Action}
    (h : a ∈ house_rolls acts) :
    a ∈ acts ∧ ∃ rv ∈ a.recordedVotes, rv.chamber = "House" := by
  simp only [house_rolls, List.mem_flatMap, List.mem_filterMap] at h
  obtain ⟨b, hb, rv, hrv, hsome⟩ := h
  by_cases hc : rv.chamber = "House"
  · rw [if_pos hc] at hsome
    cases hsome
    exact ⟨hb, rv, hrv, hc⟩
  · rw [if_neg hc] at hsome
    cases hsome

theorem mem_sen_rolls {acts : List Action} {a : Action}
    (h : a ∈ sen_rolls acts) :
    a ∈ acts ∧ ∃ rv ∈ a.recordedVotes, rv.chamber = "Senate" := by
  simp only [sen_rolls, List.mem_flatMap, List.mem_filterMap] at h
  obtain ⟨b, hb, rv, hrv, hsome⟩ := h
  by_cases hc : rv.chamber = "Senate"
  · rw [if_pos hc] at hsome
    cases hsome
    exact ⟨hb, rv, hrv, hc⟩
  · rw [if_neg hc] at hsome
    cases hsome

/-- For an action with at most one recorded-vote descriptor that does have a
descriptor for chamber `c`, the chamber-tagged roll list is exactly the
singleton of the key the source's `max` call uses. -/
theorem rollsOfChamber_single (c : String) (a : Action)
    (h1 : a.recordedVotes.length ≤ 1)
    (hrv : ∃ rv ∈ a.recordedVotes, rv.chamber = c) :
    rollsOfChamber c a = [rvKey a] := by
  obtain ⟨t, rvs⟩ := a
  obtain ⟨rv, hmem, hc⟩ := hrv
  match rvs, hmem with
  | [rv0], hmem =>
    have : rv = rv0 := by simpa using hmem
    subst this
    simp [rollsOfChamber, rvKey, hc]
  | rv0 :: rv1 :: rest, _ => simp at h1

/-- C1 amended: restricted to action histories where every action carries at
most one recorded-vote descriptor (with several descriptors the source keys
on the first descriptor's roll number regardless of chamber), the selection
returns, per requested chamber with at least one recorded vote, an action
whose descriptor for that chamber has the maximum roll number among all
actions carrying a descriptor for that chamber; if two actions report an
identical maximum roll number for the same chamber, the one encountered
FIRST in the input's original order is selected (every action strictly
before the selected one has a strictly smaller roll number), and no
exception is raised on such a tie (selection totally returns `some`). -/
theorem C1_selection_amended (acts : List Action)
    (hone : ∀ a ∈ acts, a.recordedVotes.length ≤ 1) :
    (house_rolls acts ≠ [] →
      ∃ m l₁ l₂, pick_latest (house_rolls acts) = some m ∧
        house_rolls acts = l₁ ++ m :: l₂ ∧
        rollsOfChamber "House" m = [rvKey m] ∧
        (∀ y ∈ house_rolls acts, ∀ r ∈ rollsOfChamber "House" y, r ≤ rvKey m) ∧
        (∀ y ∈ l₁, ∀ r ∈ rollsOfChamber "House" y, r < rvKey m)) ∧
    (sen_rolls acts ≠ [] →
      ∃ m l₁ l₂, pick_latest (sen_rolls acts) = some m ∧
        sen_rolls acts = l₁ ++ m :: l₂ ∧
        rollsOfChamber "Senate" m = [rvKey m] ∧
        (∀ y ∈ sen_rolls acts, ∀ r ∈ rollsOfChamber "Senate" y, r ≤ rvKey m) ∧
        (∀ y ∈ l₁, ∀ r ∈ rollsOfChamber "Senate" y, r < rvKey m)) := by
  constructor
  · intro hne
    obtain ⟨m, l₁, l₂, hmax, hdec, hle, hfirst⟩ := pyMax_spec rvKey _ hne
    have hmmem : m ∈ house_rolls acts := by
      rw [hdec]; exact List.mem_append_right _ (List.mem_cons_self _ _)
    obtain ⟨hmacts, hmrv⟩ := mem_house_rolls hmmem
    refine ⟨m, l₁, l₂, hmax, hdec,
      rollsOfChamber_single _ _ (hone m hmacts) hmrv, ?_, ?_⟩
    · intro y hy r hr
      obtain ⟨hyacts, hyrv⟩ := mem_house_rolls hy
      rw [rollsOfChamber_single _ _ (hone y hyacts) hyrv] at hr
      have : r = rvKey y := by simpa using hr
      subst this
      exact hle y hy
    · intro y hy r hr
      have hyall : y ∈ house_rolls acts := by
        rw [hdec]; exact List.mem_append_left _ hy
      obtain ⟨hyacts, hyrv⟩ := mem_house_rolls hyall
      rw [rollsOfChamber_single _ _ (hone y hyacts) hyrv] at hr
      have : r = rvKey y := by simpa using hr
      subst this
      exact hfirst y hy
  · intro hne
    obtain ⟨m, l₁, l₂, hmax, hdec, hle, hfirst⟩ := pyMax_spec rvKey _ hne
    have hmmem : m ∈ sen_rolls acts := by
      rw [hdec]; exact List.mem_append_right _ (List.mem_cons_self _ _)
    obtain ⟨hmacts, hmrv⟩ := mem_sen_rolls hmmem
    refine ⟨m, l₁, l₂, hmax, hdec,
      rollsOfChamber_single _ _ (hone m hmacts) hmrv, ?_, ?_⟩
    · intro y hy r hr
      obtain ⟨hyacts, hyrv⟩ := mem_sen_rolls hy
      rw [rollsOfChamber_single _ _ (hone y hyacts) hyrv] at hr
      have : r = rvKey y := by simpa using hr
      subst this
      exact hle y hy
    · intro y hy r hr
      have hyall : y ∈ sen_rolls acts := by
        rw [hdec]; exact List.mem_append_left _ hy
      obtain ⟨hyacts, hyrv⟩ := mem_sen_rolls hyall
      rw [rollsOfChamber_single _ _ (hone y hyacts) hyrv] at hr
      have : r = rvKey y := by simpa using hr
      subst this
      exact hfirst y hy

/-- A three-action history used to exercise the amended selection claim. -/
def C1exampleActs : List Action :=
  [⟨"house roll 5", [⟨"House", 5, "u1"⟩]⟩,
   ⟨"senate roll 7", [⟨"Senate", 7, "u2"⟩]⟩,
   ⟨"house roll 12", [⟨"House", 12, "u3"⟩]⟩]

/-- Witness for C1: the amended selection theorem applied to a concrete
three-action history containing House rolls 5 and 12 and Senate roll 7. -/
theorem C1_selection_witness :
    (∀ a ∈ C1exampleActs, a.recordedVotes.length ≤ 1) ∧
    house_rolls C1exampleActs ≠ [] ∧
    (∃ m l₁ l₂, pick_latest (house_rolls C1exampleActs) = some m ∧
      house_rolls C1exampleActs = l₁ ++ m :: l₂ ∧
      rollsOfChamber "House" m = [rvKey m] ∧
      (∀ y ∈ house_rolls C1exampleActs,
        ∀ r ∈ rollsOfChamber "House" y, r ≤ rvKey m) ∧
      (∀ y ∈ l₁, ∀ r ∈ rollsOfChamber "House" y, r < rvKey m)) :=
  ⟨by decide, by decide,
    (C1_selection_amended C1exampleActs (by decide)).1 (by decide)⟩

/-- Two distinct actions both reporting House roll number 5. -/
def C1tieA : Action := ⟨"first of the tie", [⟨"House", 5, "uA"⟩]⟩

/-- The second action of the C1 tie counterexample. -/
def C1tieB : Action := ⟨"second of the tie", [⟨"House", 5, "uB"⟩]⟩

/-- C1 counterexample: on a tie of the maximum roll number the source's
`max`-based selection returns the action encountered FIRST in input order,
refuting the claim that the last one encountered is selected. -/
theorem C1_tie_counterexample :
    pick_latest (house_rolls [C1tieA, C1tieB]) = some C1tieA ∧
    C1tieA ≠ C1tieB := by decide

/-! ## Vote store

get_votes_both.py fetch_and_store_batch (lines 140-157) creates a table
with PRIMARY KEY (congress, bill_type, bill_number, chamber, member_id) and
writes each fetched row with INSERT OR REPLACE: a conflicting old row is
deleted and the new row inserted.

get_votes.py fetch_and_store_batch (lines 76-102) creates a table with
PRIMARY KEY (congress, bill_type, bill_number, member_id) — no chamber
column — and writes with INSERT OR IGNORE: a row whose key is already
present is silently dropped.

The store is modelled as a list of rows in insertion order. -/

/-- A row of the bill_votes table of get_votes_both.py (schema at lines
140-146); nullable TEXT columns that the parsers can leave NULL are
`Option String`. -/
structure StoreRow where
  congress : Int
  bill_type : String
  bill_number : String
  chamber : String
  roll_number : Int
  member_id : Option String
  name : String
  state : Option String
  party : Option String
  role : String
  vote_position : String
  deriving DecidableEq, Repr

/-- The primary key of get_votes_both.py's bill_votes table. -/
def key5 (r : StoreRow) : Int × String × String × String × Option String :=
  (r.congress, r.bill_type, r.bill_number, r.chamber, r.member_id)

/-- SQLite INSERT OR REPLACE against PRIMARY KEY `key5`: any existing row
with the same key is deleted and the new row is appended. -/
def insertOrReplace (s : List StoreRow) (r : StoreRow) : List StoreRow :=
  s.filter (fun x => !(decide (key5 x = key5 r))) ++ [r]

/-- The INSERT OR REPLACE loop of get_votes_both.py lines 150-156 over one
batch of fetched rows. -/
def upsert_replace_batch (s : List StoreRow) (rs : List StoreRow) : List StoreRow :=
  rs.foldl insertOrReplace s

/-- A row of the bill_votes table of get_votes.py (schema at lines 76-88):
no chamber or roll_number column, and role comes from an attribute lookup
that may be absent. -/
structure StoreRowV1 where
  congress : Int
  bill_type : String
  bill_number : String
  member_id : Option String
  name : String
  state : Option String
  party : Option String
  role : Option String
  vote_position : String
  deriving DecidableEq, Repr

/-- The primary key of get_votes.py's bill_votes table. -/
def key4 (r : StoreRowV1) : Int × String × String × Option String :=
  (r.congress, r.bill_type, r.bill_number, r.member_id)

/-- Does the store already contain a row with primary key `k`? -/
def keyIn4 (k : Int × String × String × Option String) (s : List StoreRowV1) : Bool :=
  s.any (fun x => decide (key4 x = k))

/-- SQLite INSERT OR IGNORE against PRIMARY KEY `key4`: the new row is
appended only when no existing row has its key. -/
def insertOrIgnore (s : List StoreRowV1) (r : StoreRowV1) : List StoreRowV1 :=
  if keyIn4 (key4 r) s then s else s ++ [r]

/-- The INSERT OR IGNORE loop of get_votes.py lines 90-102 over one batch
of fetched rows. -/
def upsert_ignore_batch (s : List StoreRowV1) (rs : List StoreRowV1) : List StoreRowV1 :=
  rs.foldl insertOrIgnore s

/-- Does the batch contain a row with primary key `k`? -/
def keyIn5 (k : Int × String × String × String × Option String)
    (rs : List StoreRow) : Bool :=
  rs.any (fun r => decide (key5 r = k))

theorem nodup_insertOrReplace {s : List StoreRow} (r : StoreRow)
    (h : (s.map key5).Nodup) : ((insertOrReplace s r).map key5).Nodup := by
  rw [insertOrReplace, List.map_append]
  refine List.Nodup.append ?_ (List.nodup_singleton _) ?_
  · exact h.sublist (List.Sublist.map key5 (List.filter_sublist s))
  · intro k hk hk1
    simp only [List.map_cons, List.map_nil, List.mem_singleton] at hk1
    subst hk1
    simp only [List.mem_map, List.mem_filter] at hk
    obtain ⟨x, ⟨_, hxne⟩, hxk⟩ := hk
    simp only [Bool.not_eq_true', decide_eq_false_iff_not] at hxne
    exact hxne hxk

theorem nodup_upsert_replace_batch (rs : List StoreRow) (s : List StoreRow)
    (h : (s.map key5).Nodup) : ((upsert_replace_batch s rs).map key5).Nodup := by
  induction rs generalizing s with
  | nil => exact h
  | cons r rest ih => exact ih _ (nodup_insertOrReplace r h)

/-- Decomposition of the replace-upsert loop: the final store is the rows of
the initial store whose key is not touched by the batch, followed by the
batch folded into an empty store. -/
theorem upsert_replace_decomp (rs : List StoreRow) (s : List StoreRow) :
    upsert_replace_batch s rs =
      s.filter (fun x => !keyIn5 (key5 x) rs) ++ upsert_replace_batch [] rs := by
  induction rs generalizing s with
  | nil =>
    simp [upsert_replace_batch, keyIn5]
  | cons r rest ih =>
    show upsert_replace_batch (insertOrReplace s r) rest = _
    rw [ih (insertOrReplace s r)]
    have hcore : upsert_replace_batch [] (r :: rest) =
        upsert_replace_batch (insertOrReplace [] r) rest := rfl
    rw [hcore]
    have h1 : insertOrReplace [] r = [r] := rfl
    rw [h1, ih [r]]
    rw [insertOrReplace, List.filter_append, List.filter_filter,
      List.append_assoc]
    congr 1
    apply List.filter_congr
    intro x _
    by_cases hk : key5 x = key5 r
    · simp [keyIn5, hk]
    · have hk2 : ¬key5 r = key5 x := fun h => hk h.symm
      simp [keyIn5, hk, hk2]

/-- Every row produced by folding a batch into the empty store is, for its
key, the last row of the batch carrying that key (reverse-find semantics):
the INSERT OR REPLACE loop is last-write-wins. -/
theorem upsert_replace_core_last (rs : List StoreRow) (x : StoreRow)
    (hx : x ∈ upsert_replace_batch [] rs) :
    rs.reverse.find? (fun y => decide (key5 y = key5 x)) = some x := by
  induction rs using List.reverseRecOn with
  | nil => cases hx
  | append_singleton rest r ih =>
    rw [upsert_replace_batch, List.foldl_append] at hx
    simp only [List.foldl_cons, List.foldl_nil] at hx
    rw [insertOrReplace] at hx
    rcases List.mem_append.mp hx with hflt | hr
    · rw [List.mem_filter] at hflt
      obtain ⟨hmem, hne⟩ := hflt
      simp only [Bool.not_eq_true', decide_eq_false_iff_not] at hne
      rw [List.reverse_append, List.reverse_singleton, List.singleton_append,
        List.find?_cons]
      have : (decide (key5 r = key5 x)) = false := by
        simp only [decide_eq_false_iff_not]
        exact fun h => hne h.symm
      rw [this]
      exact ih hmem
    · simp only [List.mem_singleton] at hr
      subst hr
      rw [List.reverse_append, List.reverse_singleton, List.singleton_append,
        List.find?_cons]
      simp

theorem upsert_replace_core_keyIn (rs : List StoreRow) (x : StoreRow)
    (hx : x ∈ upsert_replace_batch [] rs) : keyIn5 (key5 x) rs = true := by
  have hfind := upsert_replace_core_last rs x hx
  have hmem : x ∈ rs.reverse := List.mem_of_find?_eq_some hfind
  rw [List.mem_reverse] at hmem
  simp only [keyIn5, List.any_eq_true]
  exact ⟨x, hmem, by simp⟩

theorem keyIn4_insertOrIgnore {k} (s : List StoreRowV1) (r : StoreRowV1)
    (h : keyIn4 k s = true) : keyIn4 k (insertOrIgnore s r) = true := by
  rw [insertOrIgnore]
  split
  · exact h
  · simp only [keyIn4, List.any_append] at *
    simp [h]

theorem keyIn4_insertOrIgnore_self (s : List StoreRowV1) (r : StoreRowV1) :
    keyIn4 (key4 r) (insertOrIgnore s r) = true := by
  rw [insertOrIgnore]
  split
  · assumption
  · simp [keyIn4, List.any_append]

theorem keyIn4_upsert_ignore_batch {k} (rs : List StoreRowV1)
    (s : List StoreRowV1) (h : keyIn4 k s = true) :
    keyIn4 k (upsert_ignore_batch s rs) = true := by
  induction rs generalizing s with
  | nil => exact h
  | cons r rest ih => exact ih _ (keyIn4_insertOrIgnore s r h)

theorem upsert_ignore_batch_keys (rs : List StoreRowV1) (s : List StoreRowV1)
    (r : StoreRowV1) (hr : r ∈ rs) :
    keyIn4 (key4 r) (upsert_ignore_batch s rs) = true := by
  induction rs generalizing s with
  | nil => cases hr
  | cons a rest ih =>
    rcases List.mem_cons.mp hr with rfl | hr
    · exact keyIn4_upsert_ignore_batch rest _
        (keyIn4_insertOrIgnore_self s r)
    · exact ih _ hr

theorem upsert_ignore_batch_noop (rs : List StoreRowV1) (s : List StoreRowV1)
    (h : ∀ r ∈ rs, keyIn4 (key4 r) s = true) :
    upsert_ignore_batch s rs = s := by
  induction rs with
  | nil => rfl
  | cons r rest ih =>
    show upsert_ignore_batch (insertOrIgnore s r) rest = s
    rw [insertOrIgnore, if_pos (h r (List.mem_cons_self _ _))]
    exact ih (fun x hx => h x (List.mem_cons_of_mem r hx))

theorem nodup_insertOrIgnore {s : List StoreRowV1} (r : StoreRowV1)
    (h : (s.map key4).Nodup) : ((insertOrIgnore s r).map key4).Nodup := by
  rw [insertOrIgnore]
  split
  · exact h
  · rename_i hnot
    rw [List.map_append]
    refine List.Nodup.append h (List.nodup_singleton _) ?_
    intro k hk hk1
    simp only [List.map_cons, List.map_nil, List.mem_singleton] at hk1
    subst hk1
    simp only [List.mem_map] at hk
    obtain ⟨x, hxs, hxk⟩ := hk
    have : keyIn4 (key4 r) s = true := by
      simp only [keyIn4, List.any_eq_true]
      exact ⟨x, hxs, by simp [hxk]⟩
    simp [this] at hnot

theorem nodup_upsert_ignore_batch (rs : List StoreRowV1) (s : List StoreRowV1)
    (h : (s.map key4).Nodup) : ((upsert_ignore_batch s rs).map key4).Nodup := by
  induction rs generalizing s with
  | nil => exact h
  | cons r rest ih => exact ih _ (nodup_insertOrIgnore r h)

/-- C2 amended: in the get_votes_both.py variant (INSERT OR REPLACE on the
five-part key with chamber) the store never contains two rows with the same
(congress, bill type, bill number, chamber, member id) after any sequence
of batch runs, and re-ingestion is last-write-wins: every stored row whose
key occurs in the most recent batch is exactly the LAST record of that
batch carrying its key.  In the get_votes.py variant (INSERT OR IGNORE on a
four-part key without chamber) key-uniqueness also holds after any sequence
of batch runs, but re-ingestion keeps the previously stored row instead of
overwriting it. -/
theorem C2_store_amended :
    (∀ s rs, (s.map key5).Nodup → ((upsert_replace_batch s rs).map key5).Nodup) ∧
    (∀ s rs x, x ∈ upsert_replace_batch s rs → keyIn5 (key5 x) rs = true →
      rs.reverse.find? (fun y => decide (key5 y = key5 x)) = some x) ∧
    (∀ s rs, (s.map key4).Nodup → ((upsert_ignore_batch s rs).map key4).Nodup) := by
  refine ⟨fun s rs h => nodup_upsert_replace_batch rs s h, ?_,
    fun s rs h => nodup_upsert_ignore_batch rs s h⟩
  intro s rs x hx hk
  rw [upsert_replace_decomp] at hx
  rcases List.mem_append.mp hx with hflt | hcore
  · rw [List.mem_filter] at hflt
    rw [hk] at hflt
    simp at hflt
  · exact upsert_replace_core_last rs x hcore

/-- A stored House row used by the C2 and C7 store examples. -/
def C2rowA : StoreRow :=
  ⟨118, "hr", "1", "House", 100, some "A000001", "Alice", some "NY",
    some "D", "Rep", "Yea"⟩

/-- A re-ingested row with the same five-part key as `C2rowA` but a new
vote position and roll number. -/
def C2rowA2 : StoreRow :=
  ⟨118, "hr", "1", "House", 101, some "A000001", "Alice", some "NY",
    some "D", "Rep", "Nay"⟩

/-- Witness for C2: the amended store theorem applied to concrete batches —
key-uniqueness after an upsert into the empty replace-variant store,
last-write-wins for a batch re-ingesting the same key, and key-uniqueness
for the ignore-variant store. -/
theorem C2_store_witness :
    ((upsert_replace_batch [] [C2rowA]).map key5).Nodup ∧
    ([C2rowA, C2rowA2].reverse.find?
        (fun y => decide (key5 y = key5 C2rowA2)) = some C2rowA2) ∧
    ((upsert_ignore_batch [] [⟨118, "hr", "1", some "A000001", "Alice",
        some "NY", some "D", some "Rep", "Yea"⟩]).map key4).Nodup := by
  refine ⟨C2_store_amended.1 [] [C2rowA] (by decide), ?_,
    C2_store_amended.2.2 [] _ (by decide)⟩
  exact C2_store_amended.2.1 [] [C2rowA, C2rowA2] C2rowA2
    (by decide) (by decide)

/-- The row first ingested by the C2 counterexample batch. -/
def C2igYea : StoreRowV1 :=
  ⟨118, "hr", "1", some "A000001", "Alice", some "NY", some "D",
    some "Rep", "Yea"⟩

/-- A later record for the same member and bill with a different recorded
position, fed to a second ingestion run. -/
def C2igNay : StoreRowV1 :=
  ⟨118, "hr", "1", some "A000001", "Alice", some "NY", some "D",
    some "Rep", "Nay"⟩

/-- C2 counterexample: in the get_votes.py variant (INSERT OR IGNORE), a
second ingestion of the same bill with a member's new vote position leaves
the store holding the OLD row — the claimed last-write-wins overwrite does
not happen there. -/
theorem C2_ignore_counterexample :
    upsert_ignore_batch (upsert_ignore_batch [] [C2igYea]) [C2igNay] =
      [C2igYea] ∧
    key4 C2igYea = key4 C2igNay ∧ C2igYea.vote_position = "Yea" ∧
    C2igNay.vote_position = "Nay" ∧ C2igYea ≠ C2igNay := by decide

/-- C7: running the upsert of the same batch twice is idempotent in both
store variants — the second run leaves the store exactly as the first run
left it (same rows, same order, no duplicates added). -/
theorem C7_upsert_idempotent :
    (∀ s rs, upsert_replace_batch (upsert_replace_batch s rs) rs =
      upsert_replace_batch s rs) ∧
    (∀ s rs, upsert_ignore_batch (upsert_ignore_batch s rs) rs =
      upsert_ignore_batch s rs) := by
  constructor
  · intro s rs
    conv_lhs => rw [upsert_replace_decomp, upsert_replace_decomp rs s]
    rw [List.filter_append, List.filter_filter]
    have h1 : List.filter
        (fun a => (!keyIn5 (key5 a) rs) && !keyIn5 (key5 a) rs) s =
        List.filter (fun a => !keyIn5 (key5 a) rs) s := by
      apply List.filter_congr
      intro x _
      rw [Bool.and_self]
    have h2 : List.filter (fun a => !keyIn5 (key5 a) rs)
        (upsert_replace_batch [] rs) = [] := by
      rw [List.filter_eq_nil_iff]
      intro x hx
      rw [upsert_replace_core_keyIn rs x hx]
      simp
    rw [h1, h2, List.append_nil, ← upsert_replace_decomp]
  · intro s rs
    exact upsert_ignore_batch_noop rs _
      (fun r hr => upsert_ignore_batch_keys rs s r hr)

/-! ## XML vote parsers

The EVS/LIS XML documents are modelled as element trees in the shape
`xml.etree.ElementTree` exposes: a tag (namespaced tags appear as
"{uri}name"), an attribute dictionary, optional text, and child elements. -/

/-- An XML element as ElementTree presents it. -/
inductive XElem where
  | mk : String → List (String × String) → Option String → List XElem → XElem

/-- The element's tag, as ElementTree stores it ("{uri}name" under a
namespace). -/
def XElem.tag : XElem → String
  | .mk t _ _ _ => t

/-- The element's attribute dictionary. -/
def XElem.attrib : XElem → List (String × String)
  | .mk _ a _ _ => a

/-- The element's text (None when the element has no text node). -/
def XElem.text : XElem → Option String
  | .mk _ _ tx _ => tx

/-- The element's direct children in document order. -/
def XElem.children : XElem → List XElem
  | .mk _ _ _ cs => cs

/-- Python `elem.attrib.get(name)`. -/
def XElem.get (e : XElem) (a : String) : Option String :=
  (e.attrib.find? (fun p => p.1 = a)).map Prod.snd

mutual

/-- All proper descendants of an element in document order. -/
def XElem.descendants : XElem → List XElem
  | .mk _ _ _ cs => XElem.descendantsList cs

/-- All elements of a forest, each followed by its descendants. -/
def XElem.descendantsList : List XElem → List XElem
  | [] => []
  | c :: cs => c :: (XElem.descendants c ++ XElem.descendantsList cs)

end

/-- ElementTree `root.iter()`: the element itself followed by all
descendants, in document order. -/
def XElem.iterAll (e : XElem) : List XElem :=
  e :: e.descendants

/-- ElementTree `root.findall(".//t")`: all descendants with tag `t` in
document order. -/
def findallDeep (e : XElem) (t : String) : List XElem :=
  e.descendants.filter (fun c => c.tag = t)

/-- ElementTree `elem.find(t)`: the first direct child with tag `t`. -/
def XElem.findChild (e : XElem) (t : String) : Option XElem :=
  e.children.find? (fun c => c.tag = t)

/-- ElementTree `elem.findtext(".//t", default="")`: text of the first
matching descendant ("" when its text is None), or "" when none matches. -/
def findtextDeep (e : XElem) (t : String) : String :=
  match e.descendants.find? (fun c => c.tag = t) with
  | some c => c.text.getD ""
  | none => ""

/-- The local part of a possibly namespaced tag: the source splits the tag
on the closing-brace character and keeps the last piece
(get_votes_both.py line 95). -/
def localName (t : String) : String :=
  (pySplitOn t "\x7d").getLastD t

/-! ### House parser, get_votes_both.py lines 73-88 -/

/-- One vote dict of the House branch of get_votes_both.py (lines 79-88). -/
structure HouseVote where
  congress : Int
  bill_type : String
  bill_number : Int
  chamber : String
  roll_number : Int
  member_id : Option String
  name : String
  state : Option String
  party : Option String
  role : String
  vote_position : String
  deriving DecidableEq, Repr

/-- The loop of get_votes_both.py lines 75-88 over the recorded-vote
elements: skip a pair missing the legislator or vote child; otherwise
append the record, where `pos.text.strip()` raises AttributeError when the
vote element carries no text (`(leg.text or "").strip()` guards the
legislator text, so that one cannot raise). -/
def house_loop_both (congress : Int) (bill_type : String) (bill_number : Int)
    (roll_num : Int) : List XElem → Except PyErr (List HouseVote)
  | [] => Except.ok []
  | rv :: rest =>
    match rv.findChild "legislator", rv.findChild "vote" with
    | some leg, some pos =>
      match pos.text with
      | none => Except.error PyErr.attributeError
      | some vt =>
        (house_loop_both congress bill_type bill_number roll_num rest).map
          (fun tail =>
            ⟨congress, bill_type, bill_number, "House", roll_num,
              leg.get "name-id", (leg.text.getD "").trim, leg.get "state",
              leg.get "party", "Rep", vt.trim⟩ :: tail)
    | _, _ => house_loop_both congress bill_type bill_number roll_num rest

/-- The House branch of get_votes_both.py fetch_bill_votes applied to a
parsed EVS document. -/
def fetch_house_votes_both (congress : Int) (bill_type : String)
    (bill_number : Int) (roll_num : Int) (root : XElem) :
    Except PyErr (List HouseVote) :=
  house_loop_both congress bill_type bill_number roll_num
    (findallDeep root "recorded-vote")

/-- One vote dict of get_votes.py fetch_house_bill_votes (lines 55-65). -/
structure HouseVoteV1 where
  congress : Int
  bill_type : String
  bill_number : Int
  member_id : Option String
  name : String
  state : Option String
  party : Option String
  role : Option String
  vote_position : String
  deriving DecidableEq, Repr

/-- The loop of get_votes.py lines 50-65: same skip policy, but
`leg.text.strip()` is unguarded, so a present legislator element with no
text raises AttributeError (evaluated before the vote text). -/
def house_loop_v1 (congress : Int) (bill_type : String) (bill_number : Int) :
    List XElem → Except PyErr (List HouseVoteV1)
  | [] => Except.ok []
  | rv :: rest =>
    match rv.findChild "legislator", rv.findChild "vote" with
    | some leg, some ve =>
      match leg.text with
      | none => Except.error PyErr.attributeError
      | some nm =>
        match ve.text with
        | none => Except.error PyErr.attributeError
        | some vt =>
          (house_loop_v1 congress bill_type bill_number rest).map
            (fun tail =>
              ⟨congress, bill_type, bill_number, leg.get "name-id", nm.trim,
                leg.get "state", leg.get "party", leg.get "role",
                vt.trim⟩ :: tail)
    | _, _ => house_loop_v1 congress bill_type bill_number rest

/-- One vote dict of get_votes_dev.py parse_evs_xml (lines 125-135). -/
structure EvsVote where
  member_id : Option String
  name : String
  state : Option String
  party : Option String
  chamber : String
  bill_id : String
  roll_number : Int
  vote_position : String
  deriving DecidableEq, Repr

/-- The roll-number text get_votes_dev.py line 133 slices out of the EVS
URL: `evs_url.split("roll")[-1].split(".")[0]`. -/
def rollSegment (evs_url : String) : String :=
  (pySplitOn ((pySplitOn evs_url "roll").getLastD evs_url) ".").headD ""

/-- The loop of get_votes_dev.py parse_evs_xml lines 120-135: same skip
policy; `leg.text.strip()` is unguarded (AttributeError on a textless
legislator, evaluated first), `int(...)` on the URL slice can raise
ValueError, and `vote_elem.text.strip()` is unguarded. -/
def parse_evs_loop (evs_url : String) (chamber : String) (bill_id : String) :
    List XElem → Except PyErr (List EvsVote)
  | [] => Except.ok []
  | rv :: rest =>
    match rv.findChild "legislator", rv.findChild "vote" with
    | some leg, some ve =>
      match leg.text with
      | none => Except.error PyErr.attributeError
      | some nm =>
        match pyInt (rollSegment evs_url) with
        | Except.error e => Except.error e
        | Except.ok rn =>
          match ve.text with
          | none => Except.error PyErr.attributeError
          | some vt =>
            (parse_evs_loop evs_url chamber bill_id rest).map
              (fun tail =>
                ⟨leg.get "name-id", nm.trim, leg.get "state", leg.get "party",
                  chamber, bill_id, rn, vt.trim⟩ :: tail)
    | _, _ => parse_evs_loop evs_url chamber bill_id rest

/-- get_votes_dev.py parse_evs_xml applied to a parsed EVS document. -/
def parse_evs_xml (evs_url : String) (chamber : String) (bill_id : String)
    (root : XElem) : Except PyErr (List EvsVote) :=
  parse_evs_loop evs_url chamber bill_id (findallDeep root "recorded-vote")

/-! ### Senate parser, get_votes_both.py lines 89-124 -/

/-- Member id resolution of get_votes_both.py lines 97-101: the Python
`or` chain over the attributes "id", "member_id", "lis_member_id",
"name-id", "name_id" (an absent or empty attribute falls through; the last
term is returned as-is). -/
def senateMemberId (mem : XElem) : Option String :=
  pyOrS (mem.get "id")
    (pyOrS (mem.get "member_id")
      (pyOrS (mem.get "lis_member_id")
        (pyOrS (mem.get "name-id") (mem.get "name_id"))))

/-- Vote-position resolution of get_votes_both.py lines 105-107 (computed
before the failing record dict; included for completeness). -/
def senateVotePos (mem : XElem) : String :=
  (pyOrS (mem.get "vote_cast")
    (pyOrS (mem.get "vote")
      (some (findtextDeep mem "vote_cast")))).getD ""

/-- Name resolution of get_votes_both.py lines 109-113 (computed before the
failing record dict; included for completeness). -/
def senateFullName (mem : XElem) : String :=
  (pyOrS (some ((mem.text.getD "").trim))
    (pyOrS (mem.get "full_name")
      (some (" ".intercalate
        (([mem.get "first_name", mem.get "middle_name",
           mem.get "last_name", mem.get "suffix"].filterMap id).filter
          (fun p => p ≠ "")))))).getD ""

/-- The Senate branch loop of get_votes_both.py lines 94-124.  A member
whose resolved id is None is skipped (lines 102-103).  For a usable member
the code evaluates the record dict at lines 115-124, whose entry
`"roll_number": roll_number` names an unbound variable — the local defined
at line 69 is `roll_num` — so constructing the record raises NameError
before any record can be produced. -/
def senate_loop_both : List XElem → Except PyErr (List StoreRow)
  | [] => Except.ok []
  | mem :: rest =>
    if (senateMemberId mem).isNone then senate_loop_both rest
    else Except.error PyErr.nameError

/-- The Senate branch of get_votes_both.py fetch_bill_votes applied to a
parsed LIS document: iterate all elements, keep those whose local tag name
is "member" (namespace-transparent), and run the member loop. -/
def senate_votes_both (root : XElem) : Except PyErr (List StoreRow) :=
  senate_loop_both (root.iterAll.filter (fun e => localName e.tag = "member"))

/-- get_votes.py fetch_house_bill_votes, step 5 (lines 49-66), applied to a
parsed EVS document. -/
def fetch_house_bill_votes_v1 (congress : Int) (bill_type : String)
    (bill_number : Int) (root : XElem) : Except PyErr (List HouseVoteV1) :=
  house_loop_v1 congress bill_type bill_number
    (findallDeep root "recorded-vote")

/-- A recorded-vote pair is complete when it has both a legislator child
and a vote child (the skip test of the House parsers). -/
def completePair (rv : XElem) : Bool :=
  (rv.findChild "legislator").isSome && (rv.findChild "vote").isSome

theorem house_loop_both_ok (congress : Int) (bill_type : String)
    (bill_number : Int) (roll_num : Int) (pairs : List XElem)
    (h : ∀ rv ∈ pairs, completePair rv = true →
      ((rv.findChild "vote").all fun v => v.text.isSome) = true) :
    ∃ recs, house_loop_both congress bill_type bill_number roll_num pairs =
        Except.ok recs ∧
      recs.length = pairs.countP completePair := by
  induction pairs with
  | nil => exact ⟨[], rfl, rfl⟩
  | cons rv rest ih =>
    obtain ⟨recs, hok, hlen⟩ :=
      ih (fun x hx => h x (List.mem_cons_of_mem rv hx))
    rcases hleg : rv.findChild "legislator" with _ | leg
    · refine ⟨recs, ?_, ?_⟩
      · rw [house_loop_both, hleg]
        exact hok
      · rw [hlen, List.countP_cons_of_neg]
        simp [completePair, hleg]
    · rcases hvote : rv.findChild "vote" with _ | pos
      · refine ⟨recs, ?_, ?_⟩
        · rw [house_loop_both, hleg, hvote]
          exact hok
        · rw [hlen, List.countP_cons_of_neg]
          simp [completePair, hvote]
      · have hcomp : completePair rv = true := by
          simp [completePair, hleg, hvote]
        have htext := h rv (List.mem_cons_self _ _) hcomp
        rw [hvote] at htext
        simp only [Option.all_some] at htext
        obtain ⟨vt, hvt⟩ := Option.isSome_iff_exists.mp htext
        refine ⟨⟨congress, bill_type, bill_number, "House", roll_num,
          leg.get "name-id", (leg.text.getD "").trim, leg.get "state",
          leg.get "party", "Rep", vt.trim⟩ :: recs, ?_, ?_⟩
        · rw [house_loop_both, hleg, hvote]
          simp [hvt, hok, Except.map]
        · simp [List.countP_cons_of_pos _ _ hcomp, hlen]

theorem parse_evs_loop_ok (evs_url : String) (chamber : String)
    (bill_id : String) (pairs : List XElem)
    (hurl : (pyInt (rollSegment evs_url)).isOk = true)
    (h : ∀ rv ∈ pairs, completePair rv = true →
      ((rv.findChild "legislator").all fun l => l.text.isSome) = true ∧
      ((rv.findChild "vote").all fun v => v.text.isSome) = true) :
    ∃ recs, parse_evs_loop evs_url chamber bill_id pairs = Except.ok recs ∧
      recs.length = pairs.countP completePair := by
  obtain ⟨rn, hrn⟩ : ∃ rn, pyInt (rollSegment evs_url) = Except.ok rn := by
    rcases hp : pyInt (rollSegment evs_url) with e | rn
    · rw [hp] at hurl
      simp [Except.isOk, Except.toBool] at hurl
    · exact ⟨rn, rfl⟩
  induction pairs with
  | nil => exact ⟨[], rfl, rfl⟩
  | cons rv rest ih =>
    obtain ⟨recs, hok, hlen⟩ :=
      ih (fun x hx => h x (List.mem_cons_of_mem rv hx))
    rcases hleg : rv.findChild "legislator" with _ | leg
    · refine ⟨recs, ?_, ?_⟩
      · rw [parse_evs_loop, hleg]
        exact hok
      · rw [hlen, List.countP_cons_of_neg]
        simp [completePair, hleg]
    · rcases hvote : rv.findChild "vote" with _ | ve
      · refine ⟨recs, ?_, ?_⟩
        · rw [parse_evs_loop, hleg, hvote]
          exact hok
        · rw [hlen, List.countP_cons_of_neg]
          simp [completePair, hvote]
      · have hcomp : completePair rv = true := by
          simp [completePair, hleg, hvote]
        obtain ⟨hlt, hvt0⟩ := h rv (List.mem_cons_self _ _) hcomp
        rw [hleg] at hlt
        rw [hvote] at hvt0
        simp only [Option.all_some] at hlt hvt0
        obtain ⟨nm, hnm⟩ := Option.isSome_iff_exists.mp hlt
        obtain ⟨vt, hvt⟩ := Option.isSome_iff_exists.mp hvt0
        refine ⟨⟨leg.get "name-id", nm.trim, leg.get "state", leg.get "party",
          chamber, bill_id, rn, vt.trim⟩ :: recs, ?_, ?_⟩
        · rw [parse_evs_loop, hleg, hvote]
          simp [hnm, hrn, hvt, hok, Except.map]
        · simp [List.countP_cons_of_pos _ _ hcomp, hlen]

/-- C9: both House parser variants implement lenient-skip on pairs missing
the legislator or vote element: such a pair yields no record and no
exception, and the result holds exactly one record per complete
legislator/vote pair (stated for documents whose complete pairs carry the
text the record constructors read, and — for the get_votes_dev.py variant —
an EVS URL whose roll segment parses). -/
theorem C9_house_lenient_skip :
    (∀ congress bill_type bill_number roll_num (root : XElem),
      (∀ rv ∈ findallDeep root "recorded-vote", completePair rv = true →
        ((rv.findChild "vote").all fun v => v.text.isSome) = true) →
      ∃ recs, fetch_house_votes_both congress bill_type bill_number roll_num
          root = Except.ok recs ∧
        recs.length = (findallDeep root "recorded-vote").countP completePair) ∧
    (∀ evs_url chamber bill_id (root : XElem),
      (pyInt (rollSegment evs_url)).isOk = true →
      (∀ rv ∈ findallDeep root "recorded-vote", completePair rv = true →
        ((rv.findChild "legislator").all fun l => l.text.isSome) = true ∧
        ((rv.findChild "vote").all fun v => v.text.isSome) = true) →
      ∃ recs, parse_evs_xml evs_url chamber bill_id root = Except.ok recs ∧
        recs.length = (findallDeep root "recorded-vote").countP completePair) :=
  ⟨fun congress bill_type bill_number roll_num root h =>
    house_loop_both_ok congress bill_type bill_number roll_num
      (findallDeep root "recorded-vote") h,
   fun evs_url chamber bill_id root hurl h =>
    parse_evs_loop_ok evs_url chamber bill_id
      (findallDeep root "recorded-vote") hurl h⟩

/-- A well-formed legislator element. -/
def C9leg : XElem :=
  XElem.mk "legislator" [("name-id", "A000001"), ("state", "NY"),
    ("party", "D")] (some "Alice") []

/-- A well-formed vote element. -/
def C9voteEl : XElem := XElem.mk "vote" [] (some "Yea") []

/-- A complete recorded-vote pair. -/
def C9pairGood : XElem := XElem.mk "recorded-vote" [] none [C9leg, C9voteEl]

/-- A malformed recorded-vote pair: the vote element is missing. -/
def C9pairNoVote : XElem := XElem.mk "recorded-vote" [] none [C9leg]

/-- A House EVS document with one malformed and one complete pair. -/
def C9root : XElem :=
  XElem.mk "rollcall-vote" [] none [C9pairNoVote, C9pairGood]

/-- Witness for C9: on a concrete document with one pair missing its vote
element and one complete pair, both parser variants succeed with exactly
one record. -/
theorem C9_house_witness :
    (∀ rv ∈ findallDeep C9root "recorded-vote", completePair rv = true →
      ((rv.findChild "vote").all fun v => v.text.isSome) = true) ∧
    (∃ recs, fetch_house_votes_both 118 "hr" 1 217 C9root =
        Except.ok recs ∧
      recs.length = (findallDeep C9root "recorded-vote").countP completePair) ∧
    (∃ recs, parse_evs_xml "https://clerk.house.gov/evs/2024/roll217.xml"
        "House" "HR.1" C9root = Except.ok recs ∧
      recs.length = (findallDeep C9root "recorded-vote").countP completePair) :=
  ⟨by decide,
   C9_house_lenient_skip.1 118 "hr" 1 217 C9root (by decide),
   C9_house_lenient_skip.2 "https://clerk.house.gov/evs/2024/roll217.xml"
     "House" "HR.1" C9root (by decide) (by decide)⟩

/-- A recorded-vote pair whose vote element is present but carries no
text. -/
def C10pairEmptyVote : XElem :=
  XElem.mk "recorded-vote" [] none [C9leg, XElem.mk "vote" [] none []]

/-- A recorded-vote pair whose legislator element is present but carries
no text. -/
def C10pairEmptyLeg : XElem :=
  XElem.mk "recorded-vote" [] none
    [XElem.mk "legislator" [("name-id", "B000002")] none [], C9voteEl]

/-- A House EVS document whose only pair has a textless vote element. -/
def C10rootA : XElem := XElem.mk "rollcall-vote" [] none [C10pairEmptyVote]

/-- A House EVS document whose only pair has a textless legislator
element. -/
def C10rootB : XElem := XElem.mk "rollcall-vote" [] none [C10pairEmptyLeg]

/-- C10: the lenient-skip does not extend to present-but-empty elements —
a pair with both children but a textless vote element makes the
get_votes_both.py parser raise AttributeError, and a textless legislator
element likewise makes the get_votes.py and get_votes_dev.py parsers
raise, instead of skipping the pair or producing a record. -/
theorem C10_empty_text_raises :
    fetch_house_votes_both 118 "hr" 1 217 C10rootA =
      Except.error PyErr.attributeError ∧
    fetch_house_bill_votes_v1 118 "hr" 1 C10rootB =
      Except.error PyErr.attributeError ∧
    parse_evs_xml "https://clerk.house.gov/evs/2024/roll217.xml" "House"
      "HR.1" C10rootB = Except.error PyErr.attributeError := by decide

/-- A namespaced Senate member element carrying an id attribute. -/
def C6member : XElem :=
  XElem.mk "\x7burn:senate\x7dmember"
    [("lis_member_id", "S001"), ("vote_cast", "Yea")]
    (some "Alice Senator") []

/-- A namespaced Senate member element with none of the id attributes. -/
def C6memberNoId : XElem :=
  XElem.mk "\x7burn:senate\x7dmember" [("vote_cast", "Nay")] none []

/-- A Senate LIS document with one usable member. -/
def C6rootFail : XElem :=
  XElem.mk "\x7burn:senate\x7droll_call_vote" [] none
    [XElem.mk "\x7burn:senate\x7dmembers" [] none [C6member]]

/-- A Senate LIS document whose only member has no id attribute. -/
def C6rootSkip : XElem :=
  XElem.mk "\x7burn:senate\x7droll_call_vote" [] none
    [XElem.mk "\x7burn:senate\x7dmembers" [] none [C6memberNoId]]

/-- C6 evaluation: the Senate branch locates namespaced member elements and
skips one with no id attribute without error, but on any member whose id
resolves it raises NameError while building the record — line 117 of
get_votes_both.py reads the unbound name `roll_number` (the local is
`roll_num`) — so no Senate vote record is ever produced, contrary to the
claimed contract. -/
theorem C6_senate_nameerror_eval :
    senate_votes_both C6rootFail = Except.error PyErr.nameError ∧
    senate_votes_both C6rootSkip = Except.ok [] ∧
    senateMemberId C6member = some "S001" ∧
    localName (XElem.tag C6member) = "member" := by decide

/-! ## Matrix builder, get_votes_both.py build_vote_matrix (lines 164-205)

The builder reads every stored row, inner-joins against the requested
bill list (bill numbers stringified), filters by chamber, drops rows with
a missing member id, labels rows with a Bill Id, sorts by roll number and
drops duplicate (member_id, bill_id) pairs keeping the last, and pivots.
The claims concern the surviving rows and the pivot's column label set. -/

/-- Python `str.upper` (`df["bill_type"].str.upper()` at line 190). -/
def pyUpper (s : String) : String :=
  String.mk (s.toList.map Char.toUpper)

/-- Python `str.lower` (`chamber.lower()` at line 180). -/
def pyLower (s : String) : String :=
  String.mk (s.toList.map Char.toLower)

/-- The inner-join predicate of line 177: does the stored row match some
requested (congress, bill_type, bill_number) triple, the requested bill
number cast to a string (line 176)? -/
def wantedMatch (bills : List (Int × String × Int)) (r : StoreRow) : Bool :=
  bills.any (fun b =>
    decide (r.congress = b.1) && decide (r.bill_type = b.2.1) &&
    decide (r.bill_number = toString b.2.2))

/-- The chamber filter of lines 180-184. -/
def chamberKeep (chamber : String) (r : StoreRow) : Bool :=
  let chc := pyLower chamber
  if chc = "h" ∨ chc = "house" then decide (r.chamber = "House")
  else if chc = "s" ∨ chc = "senate" then decide (r.chamber = "Senate")
  else true

/-- The Bill Id label of line 190: uppercase bill type, ".", bill number. -/
def billIdOf (r : StoreRow) : String :=
  pyUpper r.bill_type ++ "." ++ r.bill_number

/-- Lines 175-187: join to the requested bills, filter chamber, drop rows
with a missing member id.  (A bill requested twice would duplicate its
joined rows in pandas; duplicates do not change any property stated
below, so the join is modelled as the membership filter.) -/
def buildFilteredRows (bills : List (Int × String × Int)) (chamber : String)
    (store : List StoreRow) : List StoreRow :=
  ((store.filter (wantedMatch bills)).filter (chamberKeep chamber)).filter
    (fun r => r.member_id.isSome)

/-- The dedup key of line 194: (member_id, bill_id). -/
def dedupKey (r : StoreRow) : Option String × String :=
  (r.member_id, billIdOf r)

/-- The ordering of `df.sort_values("roll_number")` at line 193. -/
def rollLE (a b : StoreRow) : Prop :=
  a.roll_number ≤ b.roll_number

instance : DecidableRel rollLE :=
  fun a b => inferInstanceAs (Decidable (a.roll_number ≤ b.roll_number))

instance : IsTotal StoreRow rollLE :=
  ⟨fun a b => Int.le_total a.roll_number b.roll_number⟩

instance : IsTrans StoreRow rollLE :=
  ⟨fun _ _ _ hab hbc => le_trans hab hbc⟩

/-- `df.sort_values("roll_number")` at line 193: ascending sort by roll
number (pandas leaves the order of ties unspecified with its default sort
kind; every property proved below holds for any sort producing an ordered
permutation, which insertion sort does). -/
def sortByRoll (rows : List StoreRow) : List StoreRow :=
  List.insertionSort rollLE rows

/-- `drop_duplicates(["member_id", "bill_id"], keep="last")` at line 194:
keep the last occurrence of each (member_id, bill_id) key, preserving the
order of the kept rows. -/
def keepLastByKey : List StoreRow → List StoreRow
  | [] => []
  | x :: xs =>
    if xs.any (fun y => decide (dedupKey y = dedupKey x)) then
      keepLastByKey xs
    else
      x :: keepLastByKey xs

/-- Lines 193-194: ensure (member, bill) uniqueness keeping the latest
roll. -/
def dedupLatestRolls (rows : List StoreRow) : List StoreRow :=
  keepLastByKey (sortByRoll rows)

/-- The column label set of the pivot at lines 200-203: one column per
bill_id value occurring among the surviving rows (pandas sorts the labels
lexicographically; the claims are about which labels occur, so the list is
kept in row order, deduplicated). -/
def matrixBillColumns (bills : List (Int × String × Int)) (chamber : String)
    (store : List StoreRow) : List String :=
  ((dedupLatestRolls (buildFilteredRows bills chamber store)).map
    billIdOf).dedup

theorem mem_of_mem_keepLastByKey {xs : List StoreRow} {y : StoreRow}
    (h : y ∈ keepLastByKey xs) : y ∈ xs := by
  induction xs with
  | nil => cases h
  | cons x t ih =>
    rw [keepLastByKey] at h
    split at h
    · exact List.mem_cons_of_mem x (ih h)
    · rcases List.mem_cons.mp h with rfl | h2
      · exact List.mem_cons_self _ _
      · exact List.mem_cons_of_mem x (ih h2)

theorem keepLastByKey_keys {xs : List StoreRow}
    {k : Option String × String} (h : k ∈ xs.map dedupKey) :
    k ∈ (keepLastByKey xs).map dedupKey := by
  induction xs with
  | nil => cases h
  | cons x t ih =>
    rw [keepLastByKey]
    rcases (by simpa using h : k = dedupKey x ∨ k ∈ t.map dedupKey) with
      hk | hk
    · split
      · rename_i hany
        simp only [List.any_eq_true, decide_eq_true_eq] at hany
        obtain ⟨y, hyt, hyk⟩ := hany
        exact ih (by
          subst hk
          rw [← hyk]
          exact List.mem_map_of_mem dedupKey hyt)
      · subst hk
        exact List.mem_map_of_mem dedupKey (List.mem_cons_self _ _)
    · split
      · exact ih hk
      · rcases List.mem_map.mp (ih hk) with ⟨y, hy, hyk⟩
        exact List.mem_map.mpr ⟨y, List.mem_cons_of_mem x hy, hyk⟩

/-- On a roll-sorted list, the row that strictly dominates every other row
of its (member, bill) key survives the keep-last dedup and is the only
surviving row of that key. -/
theorem keepLastByKey_max (xs : List StoreRow)
    (hs : List.Sorted rollLE xs) (r : StoreRow) (hmem : r ∈ xs)
    (hmax : ∀ y ∈ xs, dedupKey y = dedupKey r → y ≠ r →
      y.roll_number < r.roll_number) :
    r ∈ keepLastByKey xs ∧
    ∀ y ∈ keepLastByKey xs, dedupKey y = dedupKey r → y = r := by
  induction xs with
  | nil => cases hmem
  | cons x t ih =>
    have hst : List.Sorted rollLE t := hs.of_cons
    have hpair : ∀ y ∈ t, rollLE x y := List.rel_of_sorted_cons hs
    have hmax' : ∀ y ∈ t, dedupKey y = dedupKey r → y ≠ r →
        y.roll_number < r.roll_number :=
      fun y hy => hmax y (List.mem_cons_of_mem x hy)
    rw [keepLastByKey]
    split
    · rename_i hany
      simp only [List.any_eq_true, decide_eq_true_eq] at hany
      obtain ⟨w, hwt, hwk⟩ := hany
      by_cases hrt : r ∈ t
      · exact ih hst hrt hmax'
      · exfalso
        rcases List.mem_cons.mp hmem with rfl | hrt2
        · have hwr : w ≠ r := fun hwr => hrt (hwr ▸ hwt)
          have hlt := hmax w (List.mem_cons_of_mem r hwt) hwk hwr
          have hle := hpair w hwt
          rw [rollLE] at hle
          omega
        · exact hrt hrt2
    · rename_i hany
      simp only [List.any_eq_true, decide_eq_true_eq, not_exists] at hany
      rcases List.mem_cons.mp hmem with rfl | hrt
      · refine ⟨List.mem_cons_self _ _, ?_⟩
        intro y hy hkey
        rcases List.mem_cons.mp hy with rfl | hy2
        · rfl
        · exact absurd ⟨mem_of_mem_keepLastByKey hy2, hkey⟩ (hany y)
      · have hkxr : dedupKey x ≠ dedupKey r :=
          fun hk => hany r ⟨hrt, hk.symm⟩
        obtain ⟨hin, huniq⟩ := ih hst hrt hmax'
        refine ⟨List.mem_cons_of_mem x hin, ?_⟩
        intro y hy hkey
        rcases List.mem_cons.mp hy with rfl | hy2
        · exact absurd hkey hkxr
        · exact huniq y hy2 hkey

/-- C8: when all rows sharing a (member id, bill id) key after chamber
filtering carry pairwise distinct roll numbers, the sort-then-keep-last
dedup of build_vote_matrix keeps exactly the row with the highest roll
number of each key, for every input row order. -/
theorem C8_dedup_keeps_max_roll (rows : List StoreRow) (r : StoreRow)
    (hmem : r ∈ rows)
    (hmax : ∀ y ∈ rows, dedupKey y = dedupKey r → y ≠ r →
      y.roll_number < r.roll_number) :
    r ∈ dedupLatestRolls rows ∧
    ∀ y ∈ dedupLatestRolls rows, dedupKey y = dedupKey r → y = r := by
  have hperm : List.Perm (sortByRoll rows) rows :=
    List.perm_insertionSort rollLE rows
  have hsorted : List.Sorted rollLE (sortByRoll rows) :=
    List.sorted_insertionSort rollLE rows
  have hmem2 : r ∈ sortByRoll rows := hperm.mem_iff.mpr hmem
  have hmax2 : ∀ y ∈ sortByRoll rows, dedupKey y = dedupKey r → y ≠ r →
      y.roll_number < r.roll_number :=
    fun y hy => hmax y (hperm.mem_iff.mp hy)
  exact keepLastByKey_max (sortByRoll rows) hsorted r hmem2 hmax2

/-- The duplicated-pair store row with the lower roll number. -/
def C8rowLow : StoreRow :=
  ⟨118, "hr", "1", "House", 100, some "A000001", "Alice", some "NY",
    some "D", "Rep", "Yea"⟩

/-- The duplicated-pair store row with the higher roll number. -/
def C8rowHigh : StoreRow :=
  ⟨118, "hr", "1", "House", 104, some "A000001", "Alice", some "NY",
    some "D", "Rep", "Nay"⟩

/-- An unrelated row for another member. -/
def C8rowOther : StoreRow :=
  ⟨118, "hr", "1", "House", 104, some "B000002", "Bob", some "CA",
    some "R", "Rep", "Yea"⟩

/-- Witness for C8: with the duplicate (member, bill) rows at rolls 100 and
104 (listed higher-first to exercise order independence), the dedup keeps
the roll-104 row and no other row of that key. -/
theorem C8_dedup_witness :
    C8rowHigh ∈ dedupLatestRolls [C8rowHigh, C8rowLow, C8rowOther] ∧
    ∀ y ∈ dedupLatestRolls [C8rowHigh, C8rowLow, C8rowOther],
      dedupKey y = dedupKey C8rowHigh → y = C8rowHigh :=
  C8_dedup_keeps_max_roll [C8rowHigh, C8rowLow, C8rowOther] C8rowHigh
    (by decide) (by decide)

/-- C5 amended: a Bill Id is a column of the built matrix exactly when some
stored row joins to a requested bill, passes the chamber filter, carries a
member id, and is labelled with that Bill Id.  In particular no unrequested
bill ever yields a column — but a requested bill with no joined store
entries yields NO column at all rather than a column of absent-value
markers. -/
theorem C5_matrix_columns (bills : List (Int × String × Int))
    (chamber : String) (store : List StoreRow) (b : String) :
    b ∈ matrixBillColumns bills chamber store ↔
      ∃ r ∈ store, wantedMatch bills r = true ∧
        chamberKeep chamber r = true ∧ r.member_id.isSome = true ∧
        billIdOf r = b := by
  have hperm : List.Perm (sortByRoll (buildFilteredRows bills chamber store))
      (buildFilteredRows bills chamber store) :=
    List.perm_insertionSort rollLE _
  constructor
  · intro hb
    rw [matrixBillColumns, List.mem_dedup, List.mem_map] at hb
    obtain ⟨r, hr, hrb⟩ := hb
    have hr2 : r ∈ buildFilteredRows bills chamber store :=
      hperm.mem_iff.mp (mem_of_mem_keepLastByKey hr)
    rw [buildFilteredRows] at hr2
    rw [List.mem_filter] at hr2
    obtain ⟨hr3, hid⟩ := hr2
    rw [List.mem_filter] at hr3
    obtain ⟨hr4, hch⟩ := hr3
    rw [List.mem_filter] at hr4
    obtain ⟨hr5, hw⟩ := hr4
    exact ⟨r, hr5, hw, hch, hid, hrb⟩
  · rintro ⟨r, hr, hw, hch, hid, hrb⟩
    have hr2 : r ∈ buildFilteredRows bills chamber store := by
      rw [buildFilteredRows, List.mem_filter, List.mem_filter,
        List.mem_filter]
      exact ⟨⟨⟨hr, hw⟩, hch⟩, hid⟩
    have hr3 : r ∈ sortByRoll (buildFilteredRows bills chamber store) :=
      hperm.mem_iff.mpr hr2
    have hkey : dedupKey r ∈
        (keepLastByKey (sortByRoll (buildFilteredRows bills chamber
          store))).map dedupKey :=
      keepLastByKey_keys (List.mem_map_of_mem dedupKey hr3)
    obtain ⟨y, hy, hyk⟩ := List.mem_map.mp hkey
    rw [matrixBillColumns, List.mem_dedup, List.mem_map]
    refine ⟨y, hy, ?_⟩
    have : billIdOf y = billIdOf r := congrArg Prod.snd hyk
    rw [this, hrb]

/-- The single stored row of the C5 example: bill hr 1. -/
def C5rowHR1 : StoreRow :=
  ⟨118, "hr", "1", "House", 100, some "A000001", "Alice", some "NY",
    some "D", "Rep", "Yea"⟩

/-- A stored row for bill hr 3, which the C5 example does not request. -/
def C5rowHR3 : StoreRow :=
  ⟨118, "hr", "3", "House", 101, some "A000001", "Alice", some "NY",
    some "D", "Rep", "Nay"⟩

/-- The C5 request list: bills hr 1 and hr 2 of congress 118. -/
def C5bills : List (Int × String × Int) := [(118, "hr", 1), (118, "hr", 2)]

/-- C5 counterexample: requesting bills HR.1 and HR.2 against a store
holding rows only for HR.1 and the unrequested HR.3 yields a matrix with a
single column HR.1 — the requested HR.2 gets no absent-value column at all
(refuting the claim), and the unrequested HR.3 is excluded (that part of
the claim holds). -/
theorem C5_missing_column_counterexample :
    matrixBillColumns C5bills "both" [C5rowHR1, C5rowHR3] = ["HR.1"] ∧
    (118, "hr", 2) ∈ C5bills ∧
    "HR.2" ∉ matrixBillColumns C5bills "both" [C5rowHR1, C5rowHR3] ∧
    "HR.3" ∉ matrixBillColumns C5bills "both" [C5rowHR1, C5rowHR3] := by
  decide

/-! ## Scorer, get_votes_dev.py compute_member_total_scores (lines 205-279)

The vote matrix is modelled column-major, as pandas stores a DataFrame:
an index of member ids and a list of labelled columns of optional cells.
The scorer maps every column through its bill's rule table (`score_df`),
fills gaps with the default, sums across columns per member, and ranks the
totals descending with the average tie method, cast to int for display.
The later pop/insert column reshuffling of lines 256-277 moves columns
only and changes no computed value, so it is not modelled. -/

/-- A pandas DataFrame of vote strings: an index of member ids and one
labelled cell column per DataFrame column (NaN cells are `none`). -/
structure VoteMatrix where
  members : List String
  cols : List (String × List (Option String))

/-- Line 240, `vote_matrix[bill_id].map(rule).fillna(default_score)`: map
each cell through one bill's rule dict, turning NaN cells and unmapped
strings into the default score. -/
def seriesMapFill (rule : List (String × Rat)) (d : Rat)
    (cells : List (Option String)) : List Rat :=
  cells.map (fun v =>
    match v with
    | none => d
    | some s => ((rule.lookup s).getD d))

/-- Lines 235-240: the numeric `score_df`, one scored column per column of
the vote matrix, each using `scoring_rules.get(bill_id, {})`. -/
def scoreDF (rules : List (String × List (String × Rat))) (d : Rat)
    (vm : VoteMatrix) : List (List Rat) :=
  vm.cols.map (fun c => seriesMapFill ((rules.lookup c.1).getD []) d c.2)

/-- Line 243, `score_df.sum(axis=1)`: the member at index `i` receives the
sum of the entries at position `i` of every scored column. -/
def totalScores (rules : List (String × List (String × Rat))) (d : Rat)
    (vm : VoteMatrix) : List Rat :=
  (List.range vm.members.length).map (fun i =>
    ((scoreDF rules d vm).map (fun col => col.getD i 0)).sum)

/-- The number of entries strictly greater than `s` in the score column. -/
def countGt (scores : List Rat) (s : Rat) : Nat :=
  scores.countP (fun t => decide (s < t))

/-- The number of entries equal to `s` in the score column (the size of
the tie group of `s`, including itself). -/
def countEq (scores : List Rat) (s : Rat) : Nat :=
  scores.countP (fun t => decide (t = s))

/-- Lines 247-250, `.rank(ascending=False, method="average")`: each value
is ranked by the number of strictly greater values plus the average
position inside its tie group. -/
def pandasRankAvgDesc (scores : List Rat) : List Rat :=
  scores.map (fun s =>
    ((countGt scores s : Rat) + ((countEq scores s : Rat) + 1) / 2))

/-- The fractional ranks of the members, computed from the total scores. -/
def member_ranks (rules : List (String × List (String × Rat))) (d : Rat)
    (vm : VoteMatrix) : List Rat :=
  pandasRankAvgDesc (totalScores rules d vm)

/-- Line 251, `.astype(int)`: the displayed integer ranks. -/
def member_ranks_displayed (rules : List (String × List (String × Rat)))
    (d : Rat) (vm : VoteMatrix) : List Int :=
  (member_ranks rules d vm).map pyTrunc

/-- Stated from the spec's words, for comparison with the code: the total
score of one member row is the sum, over its columns, of the bill's
rule-table weight for the vote-position string, where an absent cell, a
string that is not a key of the bill's rule table, or a bill with no rule
entry at all contributes the default score. -/
def specRowTotal (rules : List (String × List (String × Rat))) (d : Rat)
    (row : List (String × Option String)) : Rat :=
  (row.map (fun c =>
    match rules.lookup c.1 with
    | none => d
    | some rule =>
      match c.2 with
      | none => d
      | some s =>
        match rule.lookup s with
        | none => d
        | some w => w)).sum

theorem getD_map_of_lt {α β : Type} (f : α → β) (dα : α) (dβ : β) :
    ∀ (l : List α) (i : Nat), i < l.length → (l.map f).getD i dβ = f (l.getD i dα)
  | [], i, h => by simp at h
  | _ :: _, 0, _ => rfl
  | _ :: xs, i + 1, h =>
    getD_map_of_lt f dα dβ xs i (by simpa using h)

theorem getD_totalScores (rules : List (String × List (String × Rat)))
    (d : Rat) (vm : VoteMatrix) (i : Nat) (hi : i < vm.members.length) :
    (totalScores rules d vm).getD i 0 =
      ((scoreDF rules d vm).map (fun col => col.getD i 0)).sum := by
  rw [totalScores, List.getD_eq_getElem?_getD, List.getElem?_map,
    List.getElem?_range hi]
  rfl

theorem length_totalScores (rules : List (String × List (String × Rat)))
    (d : Rat) (vm : VoteMatrix) :
    (totalScores rules d vm).length = vm.members.length := by
  simp [totalScores]

/-- C4 amended: each member's total_score equals the sum over ALL columns
of the matrix — bill columns and any metadata columns alike — of that
column's rule-table weight for the cell, with an absent cell, an unmapped
string, or a column with no rule entry contributing default_score.  When
the matrix holds only bill columns this is exactly the claimed bill-wise
sum; a metadata column, however, also contributes (its default, or even a
rule weight if the rule table happens to key it). -/
theorem C4_total_scores_amended (rules : List (String × List (String × Rat)))
    (d : Rat) (vm : VoteMatrix) (i : Nat) (hi : i < vm.members.length)
    (hwf : ∀ c ∈ vm.cols, c.2.length = vm.members.length) :
    (totalScores rules d vm).getD i 0 =
      specRowTotal rules d (vm.cols.map (fun c => (c.1, c.2.getD i none))) := by
  rw [getD_totalScores rules d vm i hi, specRowTotal, List.map_map,
    scoreDF, List.map_map]
  congr 1
  apply List.map_congr_left
  intro c hc
  have hlen : i < c.2.length := by rw [hwf c hc]; exact hi
  simp only [Function.comp_apply]
  rw [seriesMapFill, getD_map_of_lt _ none 0 c.2 i hlen]
  rcases hr : rules.lookup c.1 with _ | rule
  · rcases c.2.getD i none with _ | s
    · simp [hr]
    · simp [hr]
  · rcases c.2.getD i none with _ | s
    · simp [hr]
    · rcases hw : rule.lookup s with _ | w
      · simp [hr, hw]
      · simp [hr, hw]

/-- The members of the C4 witness matrix. -/
def C4vm : VoteMatrix :=
  ⟨["A", "B"], [("HR.1", [some "Yea", some "Nay"])]⟩

/-- The rule table of the C4 witness. -/
def C4rules : List (String × List (String × Rat)) :=
  [("HR.1", [("Yea", -1), ("Nay", 1)])]

/-- Witness for C4: the amended total-score theorem applied to the
spec's two-member example (total A = -1, total B = 1). -/
theorem C4_total_scores_witness :
    ((totalScores C4rules 0 C4vm).getD 0 0 =
      specRowTotal C4rules 0 (C4vm.cols.map (fun c => (c.1, c.2.getD 0 none)))) ∧
    totalScores C4rules 0 C4vm = [-1, 1] :=
  ⟨C4_total_scores_amended C4rules 0 C4vm 0 (by decide) (by decide),
   by simp [totalScores, scoreDF, seriesMapFill, C4vm, C4rules,
     List.lookup, List.range_succ]⟩

/-- A one-member matrix carrying a metadata column "party" next to the
bill column, as the pipeline's matrices do. -/
def C4vmMeta : VoteMatrix :=
  ⟨["A"], [("party", [some "D"]), ("HR.1", [some "Yea"])]⟩

/-- C4 counterexample: with default_score 1, the code's total for the
single member is 0 — the metadata column "party" contributed the default —
while the claimed sum over exactly the bill columns is -1. -/
theorem C4_metadata_counterexample :
    totalScores C4rules 1 C4vmMeta = [0] ∧
    specRowTotal C4rules 1 [("HR.1", some "Yea")] = -1 ∧
    (0 : Rat) ≠ -1 := by
  refine ⟨?_, ?_, by norm_num⟩
  · simp [totalScores, scoreDF, seriesMapFill, C4vmMeta, C4rules,
      List.lookup, List.range_succ]
  · simp [specRowTotal, C4rules, List.lookup]

theorem occupied_rank_sum (g : Nat) : ∀ c : Nat,
    (∑ k ∈ Finset.range c, ((g : Rat) + (k + 1))) =
      c * g + c * (c + 1) / 2
  | 0 => by simp
  | n + 1 => by
    rw [Finset.sum_range_succ, occupied_rank_sum g n]
    push_cast
    ring

theorem getD_mem_of_lt {α : Type} (l : List α) (i : Nat) (d : α)
    (h : i < l.length) : l.getD i d ∈ l := by
  rw [List.getD_eq_getElem?_getD, List.getElem?_eq_getElem h]
  exact List.getElem_mem h

theorem rat_floor_eq_floor (q : Rat) : Rat.floor q = ⌊q⌋ := rfl

theorem avg_rank_closed (G C : Nat) (h : 0 < C) :
    (G : Rat) + ((C : Rat) + 1) / 2 =
      ((C : Rat) * G + C * (C + 1) / 2) / C := by
  have hC : (C : Rat) ≠ 0 := Nat.cast_ne_zero.mpr (Nat.pos_iff_ne_zero.mp h)
  field_simp
  ring

/-- C3 amended: in compute_member_total_scores, members tied on
total_score receive the arithmetic mean of the ranks they would occupy
(average tie method, descending, rank 1 for the highest score), and that
fractional rank is then TRUNCATED toward zero by astype(int) for display —
not rounded to nearest; in particular two members sharing the top score
among four receive displayed rank 1 (from 1.5), not 2. -/
theorem C3_rank_amended (rules : List (String × List (String × Rat)))
    (d : Rat) (vm : VoteMatrix) (i : Nat)
    (hi : i < (totalScores rules d vm).length) :
    0 < countEq (totalScores rules d vm)
      ((totalScores rules d vm).getD i 0) ∧
    (member_ranks rules d vm).getD i 0 =
      (∑ k ∈ Finset.range (countEq (totalScores rules d vm)
          ((totalScores rules d vm).getD i 0)),
        ((countGt (totalScores rules d vm)
          ((totalScores rules d vm).getD i 0) : Rat) + (k + 1))) /
      (countEq (totalScores rules d vm)
        ((totalScores rules d vm).getD i 0)) ∧
    (member_ranks_displayed rules d vm).getD i 0 =
      ⌊(member_ranks rules d vm).getD i 0⌋ ∧
    ∀ j, j < (totalScores rules d vm).length →
      (totalScores rules d vm).getD j 0 = (totalScores rules d vm).getD i 0 →
      (member_ranks rules d vm).getD j 0 =
        (member_ranks rules d vm).getD i 0 := by
  have hcpos : 0 < countEq (totalScores rules d vm)
      ((totalScores rules d vm).getD i 0) := by
    rw [countEq]
    exact List.countP_pos_iff.mpr
      ⟨_, getD_mem_of_lt (totalScores rules d vm) i 0 hi, by simp⟩
  have hrank : ∀ j, j < (totalScores rules d vm).length →
      (member_ranks rules d vm).getD j 0 =
        (countGt (totalScores rules d vm)
          ((totalScores rules d vm).getD j 0) : Rat) +
          ((countEq (totalScores rules d vm)
            ((totalScores rules d vm).getD j 0) : Rat) + 1) / 2 := by
    intro j hj
    rw [member_ranks, pandasRankAvgDesc]
    exact getD_map_of_lt _ 0 0 (totalScores rules d vm) j hj
  have hri := hrank i hi
  refine ⟨hcpos, ?_, ?_, ?_⟩
  · rw [hri, occupied_rank_sum]
    exact avg_rank_closed _ _ hcpos
  · have hpos : (0 : Rat) ≤ (member_ranks rules d vm).getD i 0 := by
      rw [hri]
      positivity
    have hlen : i < (member_ranks rules d vm).length := by
      simpa [member_ranks, pandasRankAvgDesc] using hi
    rw [member_ranks_displayed,
      getD_map_of_lt pyTrunc 0 0 (member_ranks rules d vm) i hlen,
      pyTrunc, if_neg (not_lt.mpr hpos)]
    rfl
  · intro j hj hjs
    rw [hrank j hj, hjs, hri]

/-- The four-member, one-bill matrix of the tie example: scores 5, 5, 3, 1
with the top two tied. -/
def C3vm : VoteMatrix :=
  ⟨["A", "B", "C", "D"],
   [("HR.1", [some "Yea", some "Yea", some "Present", some "Nay"])]⟩

/-- The rule table of the tie example. -/
def C3rules : List (String × List (String × Rat)) :=
  [("HR.1", [("Yea", 5), ("Present", 3), ("Nay", 1)])]

/-- Witness for C3: the amended ranking theorem applied to the concrete
four-member tie scenario at member index 0. -/
theorem C3_rank_witness :
    0 < (totalScores C3rules 0 C3vm).length ∧
    (0 < countEq (totalScores C3rules 0 C3vm)
      ((totalScores C3rules 0 C3vm).getD 0 0) ∧
    (member_ranks C3rules 0 C3vm).getD 0 0 =
      (∑ k ∈ Finset.range (countEq (totalScores C3rules 0 C3vm)
          ((totalScores C3rules 0 C3vm).getD 0 0)),
        ((countGt (totalScores C3rules 0 C3vm)
          ((totalScores C3rules 0 C3vm).getD 0 0) : Rat) + (k + 1))) /
      (countEq (totalScores C3rules 0 C3vm)
        ((totalScores C3rules 0 C3vm).getD 0 0)) ∧
    (member_ranks_displayed C3rules 0 C3vm).getD 0 0 =
      ⌊(member_ranks C3rules 0 C3vm).getD 0 0⌋ ∧
    ∀ j, j < (totalScores C3rules 0 C3vm).length →
      (totalScores C3rules 0 C3vm).getD j 0 =
        (totalScores C3rules 0 C3vm).getD 0 0 →
      (member_ranks C3rules 0 C3vm).getD j 0 =
        (member_ranks C3rules 0 C3vm).getD 0 0) :=
  ⟨by decide, C3_rank_amended C3rules 0 C3vm 0 (by decide)⟩

/-- C3 counterexample: on the four-member matrix with the top two tied,
total scores are [5, 5, 3, 1], fractional ranks [1.5, 1.5, 3, 4], and the
displayed astype(int) ranks are [1, 1, 3, 4] — the tied top members
display rank 1, not the rounded-to-nearest 2 the claim requires. -/
theorem C3_truncation_counterexample :
    totalScores C3rules 0 C3vm = [5, 5, 3, 1] ∧
    member_ranks C3rules 0 C3vm = [3 / 2, 3 / 2, 3, 4] ∧
    member_ranks_displayed C3rules 0 C3vm = [1, 1, 3, 4] ∧
    (1 : Int) ≠ 2 := by
  have hts : totalScores C3rules 0 C3vm = [5, 5, 3, 1] := by
    simp [totalScores, scoreDF, seriesMapFill, C3vm, C3rules,
      List.lookup, List.range_succ]
  have hmr : member_ranks C3rules 0 C3vm = [3 / 2, 3 / 2, 3, 4] := by
    rw [member_ranks, hts]
    norm_num [pandasRankAvgDesc, countGt, countEq, List.countP,
      List.countP.go]
  refine ⟨hts, hmr, ?_, by norm_num⟩
  rw [member_ranks_displayed, hmr]
  norm_num [pyTrunc, rat_floor_eq_floor]

end Navp
